import Mathlib

/-!
Verification of the sagemaker-rightline core: a shallow embedding of the
rule evaluation (rules.py), the path resolver (model.py, Validation), and
the configuration orchestration (model.py, Configuration), together with
theorems settling the specification claims about them.

Python strings are modelled as Lean strings, but every string operation
used by the source (split, replace, endswith, regex bracket search) is
reimplemented here by structural recursion over the character list, so
that all definitions evaluate inside the kernel.
-/

set_option autoImplicit false

namespace SMRL

/-! ## Python string primitives -/

/-- Split a character list at every occurrence of a single separator
character, mirroring the Python split method with a one-character
separator: the result always has one more part than there are
separator occurrences. -/
def splitOnChar (sep : Char) : List Char → List (List Char)
  | [] => [[]]
  | c :: cs =>
    if c = sep then [] :: splitOnChar sep cs
    else
      match splitOnChar sep cs with
      | [] => [[c]]
      | t :: ts => (c :: t) :: ts

/-- Split a character list at every non-overlapping occurrence of a doubled
separator character, mirroring the Python split method with the
two-character separators used by the source, namely the and-joiner and the
equality sign pair of filter conditions. -/
def splitOnPair (sep : Char) : List Char → List (List Char)
  | [] => [[]]
  | [c] => [[c]]
  | c :: d :: cs =>
    if c = sep ∧ d = sep then [] :: splitOnPair sep cs
    else
      match splitOnPair sep (d :: cs) with
      | [] => [[c]]
      | t :: ts => (c :: t) :: ts

/-- Remove every occurrence of a character, mirroring a Python replace of
that character by the empty string. -/
def removeChar (c : Char) (cs : List Char) : List Char :=
  cs.filter (fun x => x ≠ c)

/-- Replace every occurrence of one character by another, mirroring the
Python replace of the slash by the dot in filter conditions. -/
def replaceChar (a b : Char) (cs : List Char) : List Char :=
  cs.map (fun x => if x = a then b else x)

/-- Whether the last character of a character list is the given one,
mirroring the Python endswith test on a one-character suffix. -/
def lastIs (c : Char) (cs : List Char) : Bool :=
  cs.getLast? = some c

/-- The second character from the end, if any; mirrors the Python index
minus two, which raises when the string is shorter than two characters. -/
def secondLast (cs : List Char) : Option Char :=
  (cs.reverse.drop 1).head?

/-- First component of a split, with a default for the impossible empty
case; mirrors the Python index zero into a split result. -/
def headD (d : List Char) : List (List Char) → List Char
  | [] => d
  | t :: _ => t

/-- Characters strictly after the first closing bracket are discarded and
the characters before it returned; none when no closing bracket occurs. -/
def takeUntilClose : List Char → Option (List Char)
  | [] => none
  | c :: cs =>
    if c = ']' then some []
    else (takeUntilClose cs).map (fun t => c :: t)

/-- The characters strictly between the first opening bracket and the next
closing bracket after it, mirroring the lazy bracket-group regex search of
get_filtered_attributes; none when no bracketed group exists, in which
case the source raises on the failed match object. -/
def firstBracketGroup : List Char → Option (List Char)
  | [] => none
  | c :: cs =>
    if c = '[' then
      match takeUntilClose cs with
      | some g => some g
      | none => firstBracketGroup cs
    else firstBracketGroup cs

/-- Join strings with a dot separator, mirroring the Python join used to
pass the remaining path segments to the filter parser. -/
def joinDots : List String → String
  | [] => ""
  | [s] => s
  | s :: rest => s ++ "." ++ joinDots rest

/-- Whether the pattern occurs at the start of the character list. -/
def leadMatch : List Char → List Char → Bool
  | [], _ => true
  | _ :: _, [] => false
  | p :: ps, c :: cs => p = c && leadMatch ps cs

/-- Whether the pattern occurs anywhere inside the character list. -/
def occursIn (pat : List Char) : List Char → Bool
  | [] => leadMatch pat []
  | c :: cs => leadMatch pat (c :: cs) || occursIn pat cs

/-- Whether one string occurs as a contiguous substring of another. -/
def strContains (s pat : String) : Bool :=
  occursIn pat.data s.data

/-! ## Rule evaluation (rules.py) -/

/-- Validation result record, from the ValidationResult dataclass of
model.py. -/
structure ValidationResult where
  validation_name : String
  success : Bool
  negative : Bool
  message : String
  subject : String
deriving Repr, DecidableEq

/-- Python string form of a list value: brackets around the comma-joined
elementwise representations, with the element representation supplied as a
parameter since the element type is abstract here. -/
def pyStrList {α : Type} (re : α → String) (xs : List α) : String :=
  "[" ++ String.intercalate ", " (xs.map re) ++ "]"

/-- Python set comparison of two lists of hashable elements: the set built
from one equals the set built from the other exactly when each list is
contained in the other elementwise. This embeds the comparison of the two
set constructions in the try branch of the Equals rule. -/
def pySetEq {α : Type} [DecidableEq α] (a b : List α) : Bool :=
  a.all (fun x => decide (x ∈ b)) && b.all (fun x => decide (x ∈ a))

/-- The run method of the Equals rule of rules.py, in the branch taken when
every element is a hashable scalar so the set construction succeeds; the
fallback branches for unhashable elements are outside the scalar claims.
The negative flag is the constructor argument stored on the rule. -/
def Equals.run {α : Type} [DecidableEq α] (re : α → String) (negative : Bool)
    (observed expected : List α) (validation_name : String) : ValidationResult :=
  let is_equal := pySetEq observed expected
  let is_equal := if negative then !is_equal else is_equal
  { validation_name := validation_name
    success := is_equal
    negative := negative
    message := pyStrList re observed ++ " does " ++
      (if is_equal then "" else "not ") ++ "equal " ++ pyStrList re expected
    subject := pyStrList re expected }

/-- The run method of the Contains rule of rules.py. The containment test
checks each expected element independently for membership in the observed
list. The negative flag is the constructor argument stored on the rule. -/
def Contains.run {α : Type} [DecidableEq α] (re : α → String) (negative : Bool)
    (observed expected : List α) (validation_name : String) : ValidationResult :=
  let is_contained := expected.all (fun x => decide (x ∈ observed))
  let is_contained := if negative then !is_contained else is_contained
  { validation_name := validation_name
    success := is_contained
    negative := negative
    message := pyStrList re observed ++ " does " ++
      (if is_contained then "" else "not ") ++ "contain " ++ pyStrList re expected
    subject := pyStrList re expected }

/-! ## Path resolver (model.py, Validation.get_attribute and
Validation.get_filtered_attributes)

The pipeline graph is modelled as a dynamic value: an object with named
attributes, a list, or a string. Python exceptions raised during
resolution are modelled with an error type threaded through Except. -/

/-- Python error kinds surfaced by the resolver code paths. -/
inductive PyErr where
  | attributeError
  | typeError
  | valueError
  | indexError
deriving Repr, DecidableEq

/-- Dynamic value: the object graphs the resolver walks consist of objects
with named attribute slots, lists, and strings. -/
inductive Val where
  | str : String → Val
  | list : List Val → Val
  | obj : List (String × Val) → Val

/-- First-match lookup in the attribute slots of an object. -/
def lookupAttr (name : String) : List (String × Val) → Option Val
  | [] => none
  | (k, v) :: rest => if k = name then some v else lookupAttr name rest

/-- Attribute lookup on a dynamic value: only object values expose named
attributes here; none models a failing hasattr test. -/
def getattrOpt : Val → String → Option Val
  | .obj attrs, name => lookupAttr name attrs
  | _, _ => none

/-- Attribute lookup that raises: getattr without a prior hasattr test
raises an attribute error when the attribute is absent. -/
def getattrE (v : Val) (name : String) : Except PyErr Val :=
  match getattrOpt v name with
  | some x => .ok x
  | none => .error .attributeError

/-- Python iteration over a dynamic value: lists yield their elements,
strings yield their characters as one-character strings, and objects are
not iterable, which raises a type error. -/
def pyIter : Val → Except PyErr (List Val)
  | .list xs => .ok xs
  | .str s => .ok (s.data.map (fun c => .str (String.mk [c])))
  | .obj _ => .error .typeError

/-- Nested attribute access along a pre-split dotted chain, raising on the
first absent attribute. -/
def attrChain : List (List Char) → Val → Except PyErr Val
  | [], v => .ok v
  | k :: ks, v =>
    match getattrOpt v (String.mk k) with
    | some x => attrChain ks x
    | none => .error .attributeError

/-- The attrgetter accessor applied to a dotted key: repeated attribute
access along the dot-separated components of the key. -/
def attrgetterE (key : String) (v : Val) : Except PyErr Val :=
  attrChain (splitOnChar '.' key.data) v

/-- Python equality between an extracted attribute value and the string
literal on the right of a filter condition: true only for an equal
string value, as Python equality between a string and a non-string
value is false. -/
def pyEqStr : Val → String → Bool
  | .str s, t => s = t
  | _, _ => false

/-- Parse the filter conditions out of a path, as the head of
get_filtered_attributes: take the lazily matched first bracket group,
drop spaces, split on the doubled and-joiner, keep the non-empty
conditions and replace slashes by dots in each. A path without a bracket
group makes the regex search return none and the source then raises on
the missing match object. -/
def parseConds (path : String) : Except PyErr (List String) :=
  match firstBracketGroup path.data with
  | none => .error .attributeError
  | some g =>
    .ok ((((splitOnPair '&' (removeChar ' ' g)).filter
      (fun c => ¬c.isEmpty)).map (replaceChar '/' '.')).map String.mk)

/-- Evaluate one filter condition on one candidate element, as the inner
loop body of get_filtered_attributes: unpack the condition at the doubled
equality sign, which raises when the split does not yield exactly two
parts, apply the attrgetter accessor for the left part to the candidate,
and compare the outcome against the right part. -/
def evalCond (subject : Val) (cond : String) : Except PyErr Bool :=
  match splitOnPair '=' cond.data with
  | [k, v] => do
    let a ← attrgetterE (String.mk k) subject
    .ok (pyEqStr a (String.mk v))
  | _ => .error .valueError

/-- Evaluate every condition on one candidate element, collecting the
per-condition booleans in order, as the match list of
get_filtered_attributes. -/
def evalConds (subject : Val) : List String → Except PyErr (List Bool)
  | [] => .ok []
  | c :: cs => do
    let b ← evalCond subject c
    let ms ← evalConds subject cs
    .ok (b :: ms)

/-- Keep the candidates whose condition booleans are all true, processing
the candidates in order, as the outer loop of get_filtered_attributes. -/
def filterSubjects (conds : List String) : List Val → Except PyErr (List Val)
  | [] => .ok []
  | s :: rest => do
    let ms ← evalConds s conds
    let tail ← filterSubjects conds rest
    .ok (if ms.all (fun b => b) then s :: tail else tail)

/-- The get_filtered_attributes static method: parse the conditions out of
the path, iterate the filter subject and keep the elements on which every
condition holds. -/
def get_filtered_attributes (filter_subject : Val) (path : String) :
    Except PyErr (List Val) := do
  let conds ← parseConds path
  let subjects ← pyIter filter_subject
  filterSubjects conds subjects

/-- The segment loop of get_attribute over the remaining path segments,
whose list is exactly the tail slice the source passes to the filter via
the joined remainder. A segment ending in a closing bracket fetches the
bare attribute, raising when absent, and filters the result when the
bracket is non-empty; a bare segment iterates the current value and keeps,
in order, the attribute of exactly those elements that have it. -/
def resolveSegs : Val → List String → Except PyErr Val
  | cur, [] => .ok cur
  | cur, attr :: rest =>
    if lastIs ']' attr.data then do
      let hasFilter ←
        match secondLast attr.data with
        | none => Except.error PyErr.indexError
        | some c => Except.ok (decide (c ≠ '['))
      let rawAttr := String.mk (headD [] (splitOnChar '[' attr.data))
      let v ← getattrE cur rawAttr
      if hasFilter then do
        let filtered ← get_filtered_attributes v (joinDots (attr :: rest))
        resolveSegs (.list filtered) rest
      else
        resolveSegs v rest
    else do
      let xs ← pyIter cur
      resolveSegs (.list (xs.filterMap (fun s => getattrOpt s attr))) rest

/-- Resolution of one path: split on dots, drop the leading empty segment,
and run the segment loop starting from a shallow copy of the root. In this
immutable resolver model the shallow copy has no observable effect; its
aliasing behaviour is modelled separately in the heap model below. -/
def resolvePath (root : Val) (path : String) : Except PyErr Val :=
  resolveSegs root (((splitOnChar '.' path.data).drop 1).map String.mk)

/-- Resolution of every path in order, collecting the per-path values; a
raised error aborts the whole loop as in the source. -/
def resolvePaths (root : Val) : List String → Except PyErr (List Val)
  | [] => .ok []
  | p :: ps => do
    let v ← resolvePath root p
    let vs ← resolvePaths root ps
    .ok (v :: vs)

/-- The final flattening comprehension of get_attribute: iterate every
per-path value and concatenate the yielded elements in order. -/
def flattenVals : List Val → Except PyErr (List Val)
  | [] => .ok []
  | y :: ys => do
    let xs ← pyIter y
    let rest ← flattenVals ys
    .ok (xs ++ rest)

/-- The get_attribute static method: resolve every path against the root
and flatten the per-path results into one list, preserving path order and
within-path order. -/
def get_attribute (root : Val) (paths : List String) : Except PyErr (List Val) := do
  let rs ← resolvePaths root paths
  flattenVals rs

/-! ## Configuration orchestration (model.py, Configuration) -/

/-- One validation as the orchestrator sees it: a name, bound paths, and a
run behaviour producing an optional result on the pipeline. -/
structure PValidation (P : Type) where
  name : String
  paths : List String
  run : P → Option ValidationResult

/-- The handle_empty_results static method: a present result is kept, and
a missing one is replaced by a failing placeholder naming the validation
and its paths. Python stores the raw path list in the subject slot of the
placeholder; this model stores its list rendering, a detail no claim
depends on. -/
def handle_empty_results {P : Type} (result : Option ValidationResult)
    (validation : PValidation P) : ValidationResult :=
  match result with
  | some r => r
  | none =>
    { validation_name := validation.name
      success := false
      message := "Validation " ++ validation.name ++ " did not return any results. "
        ++ "Please check if the paths " ++ pyStrList (fun s => s) validation.paths
        ++ " are correct."
      subject := pyStrList (fun s => s) validation.paths
      negative := false }

/-- The loop of Configuration.run: run each validation in order, replace a
missing result by the placeholder, and when fail_fast is set and the just
produced result is a failure and this is not the last validation, raise
the distinguished failure signal carrying that result, modelled as the
error side of Except; otherwise accumulate the result rows in order. -/
def runLoop {P : Type} (pipeline : P) (fail_fast : Bool) :
    List (PValidation P) → Except ValidationResult (List ValidationResult)
  | [] => .ok []
  | v :: rest =>
    let r := handle_empty_results (v.run pipeline) v
    if !r.success && fail_fast && !rest.isEmpty then .error r
    else do
      let rs ← runLoop pipeline fail_fast rest
      .ok (r :: rs)

/-- A configuration after successful construction. -/
structure Configuration (P : Type) where
  validations : List (PValidation P)
  sagemaker_pipeline : P

/-- Configuration.run, returning the report row list or the raised
fail-fast signal carrying the failing result. -/
def Configuration.run {P : Type} (cfg : Configuration P) (fail_fast : Bool) :
    Except ValidationResult (List ValidationResult) :=
  runLoop cfg.sagemaker_pipeline fail_fast cfg.validations

/-- A value passed as one element of the validations argument: either a
genuine validation or an object of some other type. -/
inductive PyElem (P : Type) where
  | validation : PValidation P → PyElem P
  | nonValidation : PyElem P

/-- The validations argument itself, dynamically typed: either a list of
elements or a non-list value carrying its truthiness. -/
inductive PyArg (P : Type) where
  | pyList : List (PyElem P) → PyArg P
  | nonList : Bool → PyArg P

/-- Python truthiness of the argument: a list is truthy exactly when it is
non-empty. -/
def pyTruthy {P : Type} : PyArg P → Bool
  | .pyList xs => !xs.isEmpty
  | .nonList t => t

/-- Whether an element is an instance of the Validation class. -/
def isValidationElem {P : Type} : PyElem P → Bool
  | .validation _ => true
  | .nonValidation => false

/-- The validate_input_validations static method, with its three checks in
source order: an untruthy argument raises a value error, then a non-list
raises a type error, then a list containing a non-validation element
raises a type error. -/
def validate_input_validations {P : Type} (a : PyArg P) : Except PyErr Unit :=
  if !pyTruthy a then .error .valueError
  else
    match a with
    | .nonList _ => .error .typeError
    | .pyList xs =>
      if !xs.all isValidationElem then .error .typeError
      else .ok ()

/-- A constructed configuration in the dynamic model, holding the
validations argument and the pipeline exactly as given. -/
structure ConfigurationDyn (P : Type) where
  validations : PyArg P
  sagemaker_pipeline : P

/-- The Configuration constructor on the dynamic argument: validate the
argument, then store it and the pipeline unchanged. -/
def Configuration.init {P : Type} (validations : PyArg P) (pipeline : P) :
    Except PyErr (ConfigurationDyn P) := do
  validate_input_validations validations
  .ok { validations := validations, sagemaker_pipeline := pipeline }

/-! ## Heap model of the shallow copy and the parameter mutation
(model.py get_attribute together with validations.py
PipelineParametersAsExpected.run) -/

/-- A pipeline parameter object, reduced to its name and default value
slots. -/
structure PyParameter where
  name : String
  default_value : Option String
deriving Repr, DecidableEq

/-- The pipeline root in the heap model: its parameters attribute is a
list of references to parameter objects living in a heap. -/
structure PipelineRefs where
  parameters : List Nat

/-- The shallow copy taken at the start of each path resolution: a fresh
root record whose attribute slots still hold the same references, so the
parameter objects themselves are shared with the caller graph rather than
duplicated. -/
def shallowCopyPipeline (p : PipelineRefs) : PipelineRefs :=
  { parameters := p.parameters }

/-- Resolution of the parameters path in the heap model, following
get_attribute on the path .parameters[] with the empty bracket keeping the
fetched collection as is: the result is the list of references held by the
shallow copy, which are the references of the caller graph. -/
def getAttributeParameters (p : PipelineRefs) : List Nat :=
  (shallowCopyPipeline p).parameters

/-- Heap update at one reference. -/
def heapUpdate (h : Nat → PyParameter) (r : Nat) (v : PyParameter) :
    Nat → PyParameter :=
  fun a => if a = r then v else h a

/-- The mutation loop of PipelineParametersAsExpected.run when
ignore_default_value is set: assign none to the default value slot of
every observed parameter object, in place. -/
def stripDefaults (h : Nat → PyParameter) (refs : List Nat) : Nat → PyParameter :=
  refs.foldl (fun hh r => heapUpdate hh r { hh r with default_value := none }) h

/-- PipelineParametersAsExpected.run with ignore_default_value set, up to
the point where the rule is applied: extract the observed parameter
references via the resolver and strip their default values, returning the
observed references together with the heap after the mutation. -/
def ppaeExtract (p : PipelineRefs) (h : Nat → PyParameter) :
    List Nat × (Nat → PyParameter) :=
  let observed := getAttributeParameters p
  (observed, stripDefaults h observed)

/-- Whether every parsed condition holds on a candidate: the conjunction of
the condition booleans gathered by the match list, false when evaluating a
condition raises; used to state the filter semantics. -/
def condsHold (conds : List String) (x : Val) : Bool :=
  match evalConds x conds with
  | .ok ms => ms.all (fun b => b)
  | .error _ => false

/-- Fixture validation producing a successful result, used to instantiate
the orchestration claims on concrete shapes. -/
def fixturePass (nm : String) : PValidation Unit :=
  { name := nm
    paths := []
    run := fun _ => some
      { validation_name := nm, success := true, negative := false
        message := "ok", subject := "s" } }

/-- Fixture validation producing a failing result, used to instantiate the
orchestration claims on concrete shapes. -/
def fixtureFail (nm : String) : PValidation Unit :=
  { name := nm
    paths := []
    run := fun _ => some
      { validation_name := nm, success := false, negative := false
        message := "bad", subject := "s" } }

/-! ## Theorems settling the claims -/

/-! ### Claims about the rules -/

/-- Claim C1: over lists of hashable scalars, the Equals rule without the
negative flag succeeds exactly when the set of observed elements equals the
set of expected elements, duplicates and order ignored, and with the
negative flag exactly when those sets differ. -/
theorem equals_success_characterization {α : Type} [DecidableEq α] (re : α → String)
    (obs exp : List α) (name : String) :
    ((Equals.run re false obs exp name).success = true ↔ obs.toFinset = exp.toFinset)
    ∧ ((Equals.run re true obs exp name).success = true ↔ obs.toFinset ≠ exp.toFinset) := by
  have h : pySetEq obs exp = true ↔ obs.toFinset = exp.toFinset := by
    simp only [pySetEq, Bool.and_eq_true, List.all_eq_true, decide_eq_true_eq,
      Finset.ext_iff, List.mem_toFinset]
    constructor
    · rintro ⟨h1, h2⟩ a
      exact ⟨h1 a, h2 a⟩
    · intro hh
      exact ⟨fun a ha => (hh a).1 ha, fun a ha => (hh a).2 ha⟩
  constructor
  · rw [show (Equals.run re false obs exp name).success = pySetEq obs exp from rfl]
    exact h
  · rw [show (Equals.run re true obs exp name).success = !pySetEq obs exp from rfl, Ne, ← h]
    simp

/-- Claim C2: the Contains rule without the negative flag succeeds exactly
when every expected element has an equal element in the observed list, each
expected element being checked independently against the whole observed
list, so a doubled expected element is satisfied by a single observed one;
with the negative flag the success value is flipped. -/
theorem contains_success_characterization {α : Type} [DecidableEq α] (re : α → String)
    (obs exp : List α) (name : String) :
    ((Contains.run re false obs exp name).success = true ↔ ∀ x ∈ exp, x ∈ obs)
    ∧ ((Contains.run re true obs exp name).success = true ↔ ¬ ∀ x ∈ exp, x ∈ obs)
    ∧ (∀ x : α, (Contains.run re false [x] [x, x] name).success = true) := by
  have h : (exp.all (fun x => decide (x ∈ obs)) = true) ↔ ∀ x ∈ exp, x ∈ obs := by
    simp only [List.all_eq_true, decide_eq_true_eq]
  refine ⟨?_, ?_, ?_⟩
  · rw [show (Contains.run re false obs exp name).success
        = exp.all (fun x => decide (x ∈ obs)) from rfl]
    exact h
  · rw [show (Contains.run re true obs exp name).success
        = !exp.all (fun x => decide (x ∈ obs)) from rfl, ← h]
    simp
  · intro x
    simp [Contains.run]

/-- Claim C3 counterexample: with the negative flag set and equal singleton
lists, the raw comparison is true, yet both rules produce a message
containing the word not, while the same input without the flag yields a
message without it; the message therefore tracks the negated result and is
not independent of the negative flag. -/
theorem message_negation_counterexample :
    pySetEq [(1 : Int)] [(1 : Int)] = true
    ∧ strContains ((Equals.run (fun n : Int => toString n) true [1] [1] "v").message) "not" = true
    ∧ strContains ((Equals.run (fun n : Int => toString n) false [1] [1] "v").message) "not" = false
    ∧ [(1 : Int)].all (fun x => decide (x ∈ [(1 : Int)])) = true
    ∧ strContains ((Contains.run (fun n : Int => toString n) true [1] [1] "v").message) "not"
      = true := by
  decide

/-- Claim C3 amended: for both rules the message is built from the final,
post-negation boolean, which is exactly the success field of the returned
result: the word not is inserted into the message precisely when success is
false, so the negative flag affects the message text together with the
success field rather than the message describing the un-negated
comparison. -/
theorem message_reflects_final_success {α : Type} [DecidableEq α] (re : α → String)
    (neg : Bool) (obs exp : List α) (name : String) :
    ((Equals.run re neg obs exp name).message
      = pyStrList re obs ++ " does "
        ++ (if (Equals.run re neg obs exp name).success then "" else "not ")
        ++ "equal " ++ pyStrList re exp)
    ∧ ((Contains.run re neg obs exp name).message
      = pyStrList re obs ++ " does "
        ++ (if (Contains.run re neg obs exp name).success then "" else "not ")
        ++ "contain " ++ pyStrList re exp) := by
  constructor <;> rfl


/-! ### Claims about the shallow copy and the parameter mutation -/

/-- References outside the stripped list keep their heap cell. -/
theorem stripDefaults_not_mem (refs : List Nat) :
    ∀ (h : Nat → PyParameter) (r : Nat), r ∉ refs → stripDefaults h refs r = h r := by
  induction refs with
  | nil => intro h r _; rfl
  | cons a rest ih =>
    intro h r hr
    have hne : r ≠ a := fun he => hr (he ▸ List.mem_cons_self a rest)
    have hstep : stripDefaults h (a :: rest) r
        = stripDefaults (heapUpdate h a { h a with default_value := none }) rest r := rfl
    rw [hstep, ih _ _ (fun hm => hr (List.mem_cons_of_mem a hm))]
    simp [heapUpdate, hne]

/-- Every reference in the stripped list ends with an empty default value
slot. -/
theorem stripDefaults_mem (refs : List Nat) :
    ∀ (h : Nat → PyParameter) (r : Nat), r ∈ refs →
      (stripDefaults h refs r).default_value = none := by
  induction refs with
  | nil => intro h r hr; cases hr
  | cons a rest ih =>
    intro h r hr
    by_cases hmem : r ∈ rest
    · exact ih _ r hmem
    · have hra : r = a := by
        rcases List.mem_cons.mp hr with h1 | h2
        · exact h1
        · exact absurd h2 hmem
      subst hra
      have hstep : stripDefaults h (r :: rest)
          = stripDefaults (heapUpdate h r { h r with default_value := none }) rest := rfl
      rw [hstep, stripDefaults_not_mem rest _ r hmem]
      simp [heapUpdate]

/-- Claim C4 counterexample: a pipeline whose single parameter object has a
default value; after PipelineParametersAsExpected extracts the parameters
with ignore_default_value set, reading the same parameter object through
the caller reference yields an empty default value, so the caller graph is
changed and a repetition of the resolution observes the mutation, refuting
the claimed isolation of the shallow copy. -/
theorem shallow_copy_mutation_counterexample :
    ((ppaeExtract { parameters := [0] }
        (fun _ => { name := "p", default_value := some "5" })).2 0).default_value = none
    ∧ ((fun _ : Nat => ({ name := "p", default_value := some "5" } : PyParameter)) 0).default_value
      = some "5"
    ∧ ((ppaeExtract { parameters := [0] }
        (fun _ => { name := "p", default_value := some "5" })).2 0
      ≠ (fun _ : Nat => ({ name := "p", default_value := some "5" } : PyParameter)) 0) := by
  refine ⟨rfl, rfl, ?_⟩
  intro h
  exact Option.noConfusion (congrArg PyParameter.default_value h)

/-- Claim C4 amended: the shallow copy taken by get_attribute duplicates
only the root record, so the extracted references are exactly the caller
references, and the mutation performed by PipelineParametersAsExpected
with ignore_default_value is visible through the caller graph and in any
subsequent resolution: every parameter object referenced by the caller
pipeline has an empty default value slot after the run. -/
theorem ignore_default_value_mutates_shared_parameters
    (p : PipelineRefs) (h : Nat → PyParameter) (r : Nat) (hr : r ∈ p.parameters) :
    getAttributeParameters p = p.parameters
    ∧ ((ppaeExtract p h).2 r).default_value = none := by
  refine ⟨rfl, ?_⟩
  exact stripDefaults_mem p.parameters h r hr

/-- Witness for the amended claim C4 on a concrete pipeline and heap. -/
theorem ignore_default_value_mutates_shared_parameters_witness :
    getAttributeParameters { parameters := [0, 1] } = [0, 1]
    ∧ ((ppaeExtract { parameters := [0, 1] }
        (fun _ => { name := "p", default_value := some "5" })).2 1).default_value = none :=
  ignore_default_value_mutates_shared_parameters { parameters := [0, 1] }
    (fun _ => { name := "p", default_value := some "5" }) 1 (by decide)

/-! ### Claims about the configuration orchestration -/

/-- Without fail_fast the run loop maps every validation to its handled
result, in order. -/
theorem runLoop_no_fail_fast {P : Type} (p : P) (vs : List (PValidation P)) :
    runLoop p false vs = .ok (vs.map (fun w => handle_empty_results (w.run p) w)) := by
  induction vs with
  | nil => rfl
  | cons v rest ih => simp [runLoop, ih, Bind.bind, Except.bind]

/-- With fail_fast, a failing non-terminal validation after a successful
prefix raises the signal carrying its handled result. -/
theorem runLoop_fail_fast_error {P : Type} (p : P) (v : PValidation P)
    (hfail : (handle_empty_results (v.run p) v).success = false) :
    ∀ (pre tail : List (PValidation P)),
      (∀ w ∈ pre, (handle_empty_results (w.run p) w).success = true) →
      tail ≠ [] →
      runLoop p true (pre ++ v :: tail) = .error (handle_empty_results (v.run p) v) := by
  intro pre
  induction pre with
  | nil =>
    intro tail _ hne
    match tail, hne with
    | t :: ts, _ =>
      simp [runLoop, hfail]
  | cons w pre ih =>
    intro tail hpre hne
    have hw := hpre w (List.mem_cons_self w pre)
    have hrec := ih tail (fun u hu => hpre u (List.mem_cons_of_mem w hu)) hne
    simp [runLoop, hw, hrec, Bind.bind, Except.bind]

/-- Claim C5: with fail_fast set, a failing validation that is not the
last one ends the run with the distinguished signal carrying exactly its
result, and the validations after it are irrelevant to the outcome; with
fail_fast unset the run returns one result row per validation, in list
order. -/
theorem configuration_run_fail_fast {P : Type} (p : P)
    (pre : List (PValidation P)) (v : PValidation P) (tail : List (PValidation P))
    (hpre : ∀ w ∈ pre, (handle_empty_results (w.run p) w).success = true)
    (hfail : (handle_empty_results (v.run p) v).success = false)
    (hne : tail ≠ []) :
    Configuration.run { validations := pre ++ v :: tail, sagemaker_pipeline := p } true
      = .error (handle_empty_results (v.run p) v)
    ∧ (∀ tail2 : List (PValidation P), tail2 ≠ [] →
        Configuration.run { validations := pre ++ v :: tail2, sagemaker_pipeline := p } true
          = .error (handle_empty_results (v.run p) v))
    ∧ (∀ vs : List (PValidation P),
        Configuration.run { validations := vs, sagemaker_pipeline := p } false
          = .ok (vs.map (fun w => handle_empty_results (w.run p) w))) :=
  ⟨runLoop_fail_fast_error p v hfail pre tail hpre hne,
   fun tail2 hne2 => runLoop_fail_fast_error p v hfail pre tail2 hpre hne2,
   fun vs => runLoop_no_fail_fast p vs⟩

/-- Witness for claim C5 on three concrete validations with the second one
failing. -/
theorem configuration_run_fail_fast_witness :
    Configuration.run (P := Unit)
      { validations := [fixturePass "v1", fixtureFail "v2", fixturePass "v3"]
        sagemaker_pipeline := () } true
      = .error (handle_empty_results ((fixtureFail "v2").run ()) (fixtureFail "v2")) :=
  (configuration_run_fail_fast () [fixturePass "v1"] (fixtureFail "v2") [fixturePass "v3"]
    (by
      intro w hw
      rw [List.mem_singleton] at hw
      subst hw
      rfl)
    rfl (by simp)).1

/-! ### Claims about the path resolver -/

/-- A bare final segment over a list never raises and gathers, in order,
the attributes of exactly the elements that have them. -/
theorem resolveSegs_bare (xs : List Val) (attr : String)
    (h : lastIs ']' attr.data = false) :
    resolveSegs (.list xs) [attr]
      = .ok (.list (xs.filterMap (fun s => getattrOpt s attr))) := by
  simp [resolveSegs, h, pyIter, Bind.bind, Except.bind]

/-- The gathered attribute list is the in-order image of the elements
having the attribute. -/
theorem filterMap_getattr_eq (xs : List Val) (attr : String) :
    xs.filterMap (fun s => getattrOpt s attr)
      = (xs.filter (fun s => (getattrOpt s attr).isSome)).map
          (fun s => (getattrOpt s attr).getD (.str "")) := by
  induction xs with
  | nil => rfl
  | cons x rest ih =>
    cases hx : getattrOpt x attr <;>
      simp [List.filterMap_cons, List.filter_cons, hx, ih]

/-- The gathered attribute list is as long as the count of elements having
the attribute. -/
theorem filterMap_getattr_length (xs : List Val) (attr : String) :
    (xs.filterMap (fun s => getattrOpt s attr)).length
      = xs.countP (fun s => (getattrOpt s attr).isSome) := by
  induction xs with
  | nil => rfl
  | cons x rest ih =>
    cases hx : getattrOpt x attr <;>
      simp [List.filterMap_cons, List.countP_cons, hx, ih]

/-- The gathered attribute list is strictly shorter than the input exactly
when some element lacks the attribute. -/
theorem filterMap_getattr_lt_iff (xs : List Val) (attr : String) :
    (xs.filterMap (fun s => getattrOpt s attr)).length < xs.length
      ↔ ∃ x ∈ xs, getattrOpt x attr = none := by
  rw [filterMap_getattr_length]
  constructor
  · intro hlt
    by_contra hne
    push_neg at hne
    have hall : ∀ x ∈ xs, ((getattrOpt x attr).isSome : Bool) = true := fun x hx =>
      Option.isSome_iff_ne_none.mpr (hne x hx)
    rw [List.countP_eq_length.mpr hall] at hlt
    exact lt_irrefl _ hlt
  · rintro ⟨x, hx, hnone⟩
    refine Nat.lt_of_le_of_ne (List.countP_le_length _) ?_
    intro heq
    have := List.countP_eq_length.mp heq x hx
    rw [hnone] at this
    exact Bool.noConfusion this

/-- Claim C6: resolving a bare attribute segment over the current
collection keeps, in order, the attribute value of exactly those elements
possessing it and never raises; elements lacking the attribute are
silently dropped, so the output length is the count of elements having the
attribute and is strictly shorter than the input exactly when some element
lacks it. -/
theorem bare_segment_drops_missing (xs : List Val) (attr : String)
    (h : lastIs ']' attr.data = false) :
    resolveSegs (.list xs) [attr] = .ok (.list (xs.filterMap (fun s => getattrOpt s attr)))
    ∧ xs.filterMap (fun s => getattrOpt s attr)
      = (xs.filter (fun s => (getattrOpt s attr).isSome)).map
          (fun s => (getattrOpt s attr).getD (.str ""))
    ∧ (xs.filterMap (fun s => getattrOpt s attr)).length
      = xs.countP (fun s => (getattrOpt s attr).isSome)
    ∧ ((xs.filterMap (fun s => getattrOpt s attr)).length < xs.length
      ↔ ∃ x ∈ xs, getattrOpt x attr = none) :=
  ⟨resolveSegs_bare xs attr h, filterMap_getattr_eq xs attr,
   filterMap_getattr_length xs attr, filterMap_getattr_lt_iff xs attr⟩

/-- Witness for claim C6: an attribute present on one of two elements is
gathered from that element only, the other being dropped. -/
theorem bare_segment_drops_missing_witness :
    resolveSegs (Val.list [Val.obj [("a", Val.str "1")], Val.str "x"]) ["a"]
      = .ok (Val.list [Val.str "1"]) :=
  (bare_segment_drops_missing [Val.obj [("a", Val.str "1")], Val.str "x"] "a" (by decide)).1

/-- An empty bracket segment fetches the bare attribute and keeps the
fetched collection as is, applying no filtering. -/
theorem resolveSegs_empty_bracket (cur v : Val) (attr : String) (rest : List String)
    (hb : lastIs ']' attr.data = true) (h2 : secondLast attr.data = some '[')
    (hr : getattrOpt cur (String.mk (headD [] (splitOnChar '[' attr.data))) = some v) :
    resolveSegs cur (attr :: rest) = resolveSegs v rest := by
  simp [resolveSegs, hb, h2, getattrE, hr, Bind.bind, Except.bind]

/-- A single resolved path flattens to the iteration of its value. -/
theorem get_attribute_singleton (root : Val) (p : String) (c : Val) (xs : List Val)
    (h : resolvePath root p = .ok c) (hi : pyIter c = .ok xs) :
    get_attribute root [p] = .ok xs := by
  simp [get_attribute, resolvePaths, flattenVals, h, hi, Bind.bind, Except.bind]

/-- Per-path results concatenate, preserving path order. -/
theorem get_attribute_cons (root : Val) (p : String) (ps : List String)
    (r1 r2 : List Val) (h1 : get_attribute root [p] = .ok r1)
    (h2 : get_attribute root ps = .ok r2) :
    get_attribute root (p :: ps) = .ok (r1 ++ r2) := by
  cases hc : resolvePath root p with
  | error e => simp [get_attribute, resolvePaths, hc, Bind.bind, Except.bind] at h1
  | ok c =>
    cases hi : pyIter c with
    | error e =>
      simp [get_attribute, resolvePaths, flattenVals, hc, hi, Bind.bind, Except.bind] at h1
    | ok xs =>
      cases hrs : resolvePaths root ps with
      | error e => simp [get_attribute, hrs, Bind.bind, Except.bind] at h2
      | ok vs =>
        have h1' : xs = r1 := by
          simp [get_attribute, resolvePaths, flattenVals, hc, hi, Bind.bind, Except.bind] at h1
          exact h1
        have h2' : flattenVals vs = .ok r2 := by
          simp [get_attribute, hrs, Bind.bind, Except.bind] at h2
          exact h2
        subst h1'
        simp [get_attribute, resolvePaths, flattenVals, hc, hi, hrs, h2',
          Bind.bind, Except.bind]

/-- Claim C7: resolving the steps path with an empty bracket over a
pipeline yields exactly its step collection, in declaration order, the
empty bracket applying no filtering; and in general the overall result
concatenates the per-path result lists, preserving path order and
within-path order. -/
theorem steps_empty_bracket_and_flatten (attrs : List (String × Val)) (steps : List Val)
    (hsteps : lookupAttr "steps" attrs = some (.list steps)) :
    get_attribute (.obj attrs) [".steps[]"] = .ok steps
    ∧ (∀ (root : Val) (p : String) (ps : List String) (r1 r2 : List Val),
        get_attribute root [p] = .ok r1 → get_attribute root ps = .ok r2 →
        get_attribute root (p :: ps) = .ok (r1 ++ r2)) := by
  constructor
  · have hrs : resolvePath (Val.obj attrs) ".steps[]" = .ok (Val.list steps) :=
      resolveSegs_empty_bracket (Val.obj attrs) (Val.list steps) "steps[]" []
        (by decide) (by decide) hsteps
    exact get_attribute_singleton _ _ _ _ hrs rfl
  · intro root p ps r1 r2 h1 h2
    exact get_attribute_cons root p ps r1 r2 h1 h2

/-- Witness for claim C7 on a pipeline carrying two steps. -/
theorem steps_empty_bracket_and_flatten_witness :
    get_attribute (Val.obj [("steps", Val.list [Val.str "s1", Val.str "s2"])]) [".steps[]"]
      = .ok [Val.str "s1", Val.str "s2"] :=
  (steps_empty_bracket_and_flatten [("steps", Val.list [Val.str "s1", Val.str "s2"])]
    [Val.str "s1", Val.str "s2"] rfl).1

/-- The filter loop keeps, in order, exactly the candidates on which every
condition holds, provided no candidate raises during evaluation. -/
theorem filterSubjects_eq_filter (conds : List String) (xs : List Val)
    (hok : ∀ x ∈ xs, ∃ ms, evalConds x conds = .ok ms) :
    filterSubjects conds xs = .ok (xs.filter (condsHold conds)) := by
  induction xs with
  | nil => rfl
  | cons s rest ih =>
    obtain ⟨ms, hms⟩ := hok s (List.mem_cons_self s rest)
    have hrest := ih (fun u hu => hok u (List.mem_cons_of_mem s hu))
    have hch : condsHold conds s = ms.all (fun b => b) := by
      simp [condsHold, hms]
    simp [filterSubjects, hms, hrest, List.filter_cons, hch, Bind.bind, Except.bind]

/-- The conjunction of the gathered condition booleans holds exactly when
every condition evaluates to true. -/
theorem evalConds_all_iff (x : Val) (conds : List String) :
    ∀ ms, evalConds x conds = .ok ms →
      (ms.all (fun b => b) = true ↔ ∀ c ∈ conds, evalCond x c = .ok true) := by
  induction conds with
  | nil =>
    intro ms hms
    cases hms
    simp
  | cons c cs ih =>
    intro ms hms
    cases hb : evalCond x c with
    | error e => simp [evalConds, hb, Bind.bind, Except.bind] at hms
    | ok b =>
      cases hcs : evalConds x cs with
      | error e => simp [evalConds, hb, hcs, Bind.bind, Except.bind] at hms
      | ok ms' =>
        have hms' : ms = b :: ms' := by
          simp [evalConds, hb, hcs, Bind.bind, Except.bind] at hms
          exact hms.symm
        subst hms'
        have hbiff : (b = true) ↔ (evalCond x c = .ok true) := by
          rw [hb]
          constructor
          · intro h; rw [h]
          · intro h; exact Except.ok.inj h
        simp only [List.all_cons, List.mem_cons, Bool.and_eq_true, hbiff, ih ms' hcs]
        constructor
        · rintro ⟨h1, h2⟩ cc hcc
          rcases hcc with hcc | hcc
          · rw [hcc]; exact h1
          · exact h2 cc hcc
        · intro h
          exact ⟨h c (Or.inl rfl), fun cc hcc => h cc (Or.inr hcc)⟩

/-- Claim C8: a bracketed segment with a non-empty filter keeps a candidate
exactly when every and-joined condition matches, conditions being resolved
by nested attribute access on the candidate, with slashes standing for
dots, and compared for equality against the literal right side; a
candidate failing any single condition is excluded. -/
theorem filter_keeps_iff_all_conditions (path : String) (conds : List String)
    (xs : List Val)
    (hp : parseConds path = .ok conds)
    (hok : ∀ x ∈ xs, ∃ ms, evalConds x conds = .ok ms) :
    get_filtered_attributes (.list xs) path = .ok (xs.filter (condsHold conds))
    ∧ (∀ x ∈ xs, (condsHold conds x = true ↔ ∀ c ∈ conds, evalCond x c = .ok true))
    ∧ (∀ x ∈ xs, ∀ c ∈ conds, evalCond x c = .ok false →
        x ∉ xs.filter (condsHold conds)) := by
  have hfs := filterSubjects_eq_filter conds xs hok
  refine ⟨?_, ?_, ?_⟩
  · simp [get_filtered_attributes, hp, pyIter, hfs, Bind.bind, Except.bind]
  · intro x hx
    obtain ⟨ms, hms⟩ := hok x hx
    have hch : condsHold conds x = ms.all (fun b => b) := by
      simp [condsHold, hms]
    rw [hch]
    exact evalConds_all_iff x conds ms hms
  · intro x hx c hc hfalse hmem
    obtain ⟨ms, hms⟩ := hok x hx
    have hch : condsHold conds x = true := (List.mem_filter.mp hmem).2
    have hch' : condsHold conds x = ms.all (fun b => b) := by
      simp [condsHold, hms]
    rw [hch'] at hch
    have := (evalConds_all_iff x conds ms hms).mp hch c hc
    rw [hfalse] at this
    exact Bool.noConfusion (Except.ok.inj this)

/-- Witness for claim C8: a single name condition keeps the matching step
and drops the other. -/
theorem filter_keeps_iff_all_conditions_witness :
    get_filtered_attributes
      (Val.list [Val.obj [("name", Val.str "A")], Val.obj [("name", Val.str "B")]])
      "steps[name==A]"
      = .ok [Val.obj [("name", Val.str "A")]] :=
  (filter_keeps_iff_all_conditions "steps[name==A]" ["name==A"]
    [Val.obj [("name", Val.str "A")], Val.obj [("name", Val.str "B")]]
    rfl
    (by
      intro x hx
      rw [List.mem_cons, List.mem_singleton] at hx
      rcases hx with h | h
      · subst h; exact ⟨[true], rfl⟩
      · subst h; exact ⟨[false], rfl⟩)).1

/-- The construction check succeeds exactly on a non-empty genuine list
whose elements are all validations. -/
theorem validate_input_ok_iff {P : Type} (a : PyArg P) :
    validate_input_validations a = .ok ()
      ↔ ∃ xs, a = .pyList xs ∧ xs ≠ [] ∧ ∀ e ∈ xs, ∃ w, e = .validation w := by
  cases a with
  | nonList t =>
    constructor
    · intro h
      cases t <;> simp [validate_input_validations, pyTruthy] at h
    · rintro ⟨xs, h, -, -⟩
      exact PyArg.noConfusion h
  | pyList xs =>
    constructor
    · intro h
      refine ⟨xs, rfl, ?_, ?_⟩
      · intro hnil
        subst hnil
        simp [validate_input_validations, pyTruthy] at h
      · intro e he
        have hall : xs.all isValidationElem = true := by
          by_contra hno
          have hfa : xs.all isValidationElem = false := Bool.eq_false_iff.mpr hno
          by_cases h1 : xs.isEmpty <;>
            simp [validate_input_validations, pyTruthy, h1, hfa] at h
        have := List.all_eq_true.mp hall e he
        cases e with
        | validation w => exact ⟨w, rfl⟩
        | nonValidation => exact Bool.noConfusion this
    · rintro ⟨xs', heq, hne, hval⟩
      have hxs : xs' = xs := by
        cases heq
        rfl
      subst hxs
      have h1 : xs'.isEmpty = false := by
        cases xs' with
        | nil => exact absurd rfl hne
        | cons _ _ => rfl
      have h2 : xs'.all isValidationElem = true := by
        rw [List.all_eq_true]
        intro e he
        obtain ⟨w, hw⟩ := hval e he
        rw [hw]
        rfl
      simp [validate_input_validations, pyTruthy, h1, h2]

/-- Claim C9: constructing a Configuration raises a fatal error exactly
when the validations argument is empty, is not a list, or contains an
element that is not a validation; on a validly typed non-empty list the
construction succeeds and stores the validations argument and the
pipeline unchanged. -/
theorem configuration_init_characterization {P : Type} (a : PyArg P) (p : P) :
    ((∃ cfg, Configuration.init a p = .ok cfg)
      ↔ ∃ xs, a = .pyList xs ∧ xs ≠ [] ∧ ∀ e ∈ xs, ∃ w, e = .validation w)
    ∧ (∀ cfg, Configuration.init a p = .ok cfg →
        cfg.validations = a ∧ cfg.sagemaker_pipeline = p) := by
  constructor
  · rw [← validate_input_ok_iff (P := P) a]
    constructor
    · rintro ⟨cfg, hcfg⟩
      cases hv : validate_input_validations a with
      | ok u => cases u; rfl
      | error e => simp [Configuration.init, hv, Bind.bind, Except.bind] at hcfg
    · intro hv
      exact ⟨{ validations := a, sagemaker_pipeline := p },
        by simp [Configuration.init, hv, Bind.bind, Except.bind]⟩
  · intro cfg hcfg
    cases hv : validate_input_validations a with
    | error e => simp [Configuration.init, hv, Bind.bind, Except.bind] at hcfg
    | ok u =>
      cases u
      have hc : { validations := a, sagemaker_pipeline := p : ConfigurationDyn P } = cfg := by
        simp [Configuration.init, hv, Bind.bind, Except.bind] at hcfg
        exact hcfg
      rw [← hc]
      exact ⟨rfl, rfl⟩

/-- Witness for claim C9: a singleton list holding one validation is
accepted. -/
theorem configuration_init_characterization_witness :
    ∃ cfg, Configuration.init (P := Unit)
      (.pyList [.validation (fixturePass "v")]) () = .ok cfg :=
  (configuration_init_characterization (.pyList [.validation (fixturePass "v")]) ()).1.mpr
    ⟨[.validation (fixturePass "v")], rfl, by simp, by
      intro e he
      rw [List.mem_singleton] at he
      exact ⟨fixturePass "v", he⟩⟩

/-- Claim C10: during bracket-filter evaluation the condition accessor is
applied unconditionally, so a candidate lacking an attribute named in a
filter condition makes the filter raise an attribute error, which
propagates out of path resolution; by contrast, bare-segment extraction
never raises on missing attributes and silently drops such elements. -/
theorem filter_missing_attribute_raises (path : String) (conds : List String)
    (c : String) (kcs vcs : List Char) (x : Val) (rest : List Val)
    (hp : parseConds path = .ok conds)
    (hc : conds.head? = some c)
    (hsplit : splitOnPair '=' c.data = [kcs, vcs])
    (hkey : splitOnChar '.' kcs = [kcs])
    (hx : getattrOpt x (String.mk kcs) = none) :
    get_filtered_attributes (.list (x :: rest)) path = .error .attributeError
    ∧ (∀ (root : Val) (q : String) (qs : List String) (e : PyErr),
        resolvePath root q = .error e → get_attribute root (q :: qs) = .error e)
    ∧ (∀ (ys : List Val) (attr : String), lastIs ']' attr.data = false →
        resolveSegs (.list ys) [attr]
          = .ok (.list (ys.filterMap (fun s => getattrOpt s attr)))) := by
  refine ⟨?_, ?_, ?_⟩
  · obtain ⟨cs, hcs⟩ : ∃ cs, conds = c :: cs := by
      cases conds with
      | nil => exact absurd hc (by simp)
      | cons c0 cs =>
        refine ⟨cs, ?_⟩
        have : c0 = c := by simpa using hc
        rw [this]
    have e2 : attrgetterE (String.mk kcs) x = .error .attributeError := by
      show attrChain (splitOnChar '.' kcs) x = _
      rw [hkey]
      show (match getattrOpt x (String.mk kcs) with
        | some y => attrChain [] y
        | none => Except.error PyErr.attributeError) = _
      rw [hx]
    have hev : evalCond x c = .error .attributeError := by
      unfold evalCond
      rw [hsplit]
      show (do
        let a ← attrgetterE (String.mk kcs) x
        Except.ok (pyEqStr a (String.mk vcs))) = _
      rw [e2]
      rfl
    have hevs : evalConds x conds = .error .attributeError := by
      rw [hcs]
      simp [evalConds, hev, Bind.bind, Except.bind]
    have hfs : filterSubjects conds (x :: rest) = .error .attributeError := by
      simp [filterSubjects, hevs, Bind.bind, Except.bind]
    simp [get_filtered_attributes, hp, pyIter, hfs, Bind.bind, Except.bind]
  · intro root q qs e he
    simp [get_attribute, resolvePaths, he, Bind.bind, Except.bind]
  · intro ys attr h
    exact resolveSegs_bare ys attr h

/-- Witness for claim C10: a step without a name attribute makes the name
filter raise. -/
theorem filter_missing_attribute_raises_witness :
    get_filtered_attributes (Val.list [Val.obj [("kind", Val.str "P")]]) "steps[name==A]"
      = .error .attributeError :=
  (filter_missing_attribute_raises "steps[name==A]" ["name==A"] "name==A"
    ("name".data) ("A".data) (Val.obj [("kind", Val.str "P")]) []
    rfl rfl rfl rfl rfl).1

end SMRL
